import Mathlib

/-!
Verification development for the SecureDiskWipe repository
(`src/secure-wipe.py`): a shallow embedding in Lean 4 of the deletion and
metadata-flooding engine, with theorems settling the specification claims.

Conventions of the embedding:
* Python file-system state and randomness are passed explicitly
  (randomness as an injective supply of fresh names, the file system as a
  list of live paths).
* Python `float` arithmetic on capacity values is modelled by exact
  rational/natural arithmetic with truncating division; the magnitudes
  involved (journal/storage sizes) are far below 2^52, where the two agree.
* Fallible operations are modelled with `Option`/`Except`; an exception
  raised by the OS is an explicit environment input.
-/

namespace SecureWipe

/-! ## RandomNameGenerator (`generate_random_name`, src/secure-wipe.py lines 18-27)

`secrets.token_hex(k)` draws `k` random bytes and returns their lowercase
hex encoding; randomness is modelled by an explicit byte supply. -/

/-- The sixteen lowercase hexadecimal digit characters. -/
def hexAlphabet : List Char := "0123456789abcdef".data

/-- Hex digit character for a value below 16 (lowercase, as Python's
`secrets.token_hex` produces). -/
def hexChar (n : Nat) : Char :=
  if n < 10 then Char.ofNat (48 + n) else Char.ofNat (87 + n)

/-- Two lowercase hex characters encoding one byte. -/
def byteToHex (b : Nat) : List Char :=
  [hexChar (b / 16 % 16), hexChar (b % 16)]

/-- Model of `secrets.token_hex` applied to an explicit list of drawn bytes. -/
def token_hex (bytes : List Nat) : String :=
  String.mk (bytes.flatMap byteToHex)

/-- Model of `generate_random_name(length)` (default `length = 48`): it
returns `secrets.token_hex(length // 2)`, i.e. the hex encoding of
`length / 2` freshly drawn random bytes.  The byte supply `rand` stands for
the cryptographically secure random source; the function has no other
effect. -/
def generate_random_name (rand : Nat → Nat) (len : Nat) : String :=
  token_hex ((List.range (len / 2)).map rand)

/-! ## FileSanitizer (`secure_delete_file`, src/secure-wipe.py lines 347-420)

The overwrite loop is modelled as the trace of file-system calls it issues.
The chunking `while` loop (`remaining > 0`) is embedded with a fuel
argument; `fileSize` steps always suffice because every iteration consumes
at least one byte. -/

/-- One event issued by `secure_delete_file` against the OS. -/
inductive FileEvent where
  | seekStart : FileEvent
  | write : Nat → FileEvent
  | flush : FileEvent
  | fsync : FileEvent
  | remove : FileEvent
deriving DecidableEq, Repr

/-- Chunk sizes produced by the inner `while remaining > 0` loop:
`chunk = min(chunk_size, remaining)` with `chunk_size = 1024 * 1024`. -/
def writeChunksFuel : Nat → Nat → List Nat
  | 0, _ => []
  | _ + 1, 0 => []
  | fuel + 1, r + 1 =>
    min 1048576 (r + 1) :: writeChunksFuel fuel ((r + 1) - min 1048576 (r + 1))

/-- Chunk sizes written in one overwrite pass over a file of `fileSize`
bytes. -/
def writeChunks (fileSize : Nat) : List Nat :=
  writeChunksFuel fileSize fileSize

/-- Trace of the `for i in range(passes)` overwrite loop: each pass seeks
to the start and writes the chunk sequence of one full pass. -/
def overwriteTrace (fileSize : Nat) : Nat → List FileEvent
  | 0 => []
  | k + 1 =>
    overwriteTrace fileSize k ++
      (FileEvent.seekStart :: (writeChunks fileSize).map FileEvent.write)

/-- Result and OS-call trace of `secure_delete_file` on an existing file of
the given size, in a run where no exception occurs: zero-length files are
removed directly; otherwise all passes run, then one flush, one fsync, and
the unlink. -/
def secure_delete_file (fileSize passes : Nat) : Bool × List FileEvent :=
  if fileSize = 0 then (true, [FileEvent.remove])
  else (true, overwriteTrace fileSize passes ++
    [FileEvent.flush, FileEvent.fsync, FileEvent.remove])

/-- Boolean discriminators for trace events. -/
def isSeek : FileEvent → Bool
  | FileEvent.seekStart => true
  | _ => false

/-- True exactly on `write` events. -/
def isWrite : FileEvent → Bool
  | FileEvent.write _ => true
  | _ => false

/-- True exactly on `flush` events. -/
def isFlush : FileEvent → Bool
  | FileEvent.flush => true
  | _ => false

/-- True exactly on `fsync` events. -/
def isFsync : FileEvent → Bool
  | FileEvent.fsync => true
  | _ => false

/-! ## Failure policy of `secure_delete_file` and the step-2 loop of
`secure_delete_folder` (src/secure-wipe.py lines 359-420 and 536-550)

The body of `secure_delete_file` runs inside `try`; `except
PermissionError` and `except Exception` both return `False`.  An exception
raised by the OS during the body is an explicit input here. -/

/-- Exceptions the OS may raise into `secure_delete_file`'s `try` block. -/
inductive PyExc where
  | permissionError : PyExc
  | otherError : PyExc
deriving DecidableEq, Repr

/-- Environment of one file processed by the step-2 loop: whether its
recorded path still exists (`os.path.exists` / `os.path.isfile`), its
size, and an exception the OS raises during open/write/remove, if any. -/
structure FileCase where
  present : Bool
  size : Nat
  raised : Option PyExc
deriving DecidableEq, Repr

/-- The `try` body of `secure_delete_file`: if the path is not a file the
function falls through returning `None` (falsy, modelled `false`);
otherwise an OS exception propagates out of the body, and an
exception-free body returns `True`. -/
def secure_delete_file_body (c : FileCase) : Except PyExc Bool :=
  if c.present then
    match c.raised with
    | some e => Except.error e
    | none => Except.ok true
  else Except.ok false

/-- `secure_delete_file` as seen by its caller: both `except` clauses
catch the exception and return `False`. -/
def secure_delete_file_catch (c : FileCase) : Bool :=
  match secure_delete_file_body c with
  | Except.ok b => b
  | Except.error PyExc.permissionError => false
  | Except.error PyExc.otherError => false

/-- Step-2 loop of `secure_delete_folder`: for each recorded path, if it
exists, call `secure_delete_file` and count a success on `True`. -/
def delete_files_phase (cases : List FileCase) : Nat :=
  cases.foldl
    (fun acc c => if c.present && secure_delete_file_catch c then acc + 1 else acc) 0

/-- Summary report printed at the end of `secure_delete_folder`
(`success_count`/`total_files`). -/
structure WipeReport where
  successCount : Nat
  totalFiles : Nat
deriving DecidableEq, Repr

/-- The report `secure_delete_folder` always produces after the step-2
loop. -/
def wipe_report (cases : List FileCase) : WipeReport :=
  ⟨delete_files_phase cases, cases.length⟩

/-! ## DirectoryInventory and DirectoryTeardown
(`secure_delete_folder`, src/secure-wipe.py lines 423-620)

The inventory is `os.walk(folder, topdown=False)`: every directory of the
tree is visited after all directories inside it, and the visit of a
directory appends that directory's files to `all_files` and its
subdirectories to `all_dirs`.  A directory tree is a mutual inductive;
paths are lists of name components rooted at the walk's starting
directory. -/

mutual
/-- A directory: its named subdirectories (in listing order) and the names
of the plain files it contains. -/
inductive FsTree where
  | node : FsForest → List String → FsTree

/-- The named subdirectories of a directory, in listing order. -/
inductive FsForest where
  | nil : FsForest
  | cons : String → FsTree → FsForest → FsForest
end

/-- Names of the root subdirectories of a forest, in listing order. -/
def forestNames : FsForest → List String
  | FsForest.nil => []
  | FsForest.cons n _ rest => n :: forestNames rest

mutual
/-- Directory paths appended to `all_dirs` by `os.walk(·, topdown=False)`
started at path `p`: first the contributions of the subtrees (deepest
visits first), then the subdirectory paths listed by the visit of the
directory itself. -/
def walkDirs (p : List String) : FsTree → List (List String)
  | FsTree.node subs _ =>
    walkDirsForest p subs ++ (forestNames subs).map (fun n => p ++ [n])

/-- Contributions to `all_dirs` of the subtrees of a forest, in listing
order. -/
def walkDirsForest (p : List String) : FsForest → List (List String)
  | FsForest.nil => []
  | FsForest.cons n t rest => walkDirs (p ++ [n]) t ++ walkDirsForest p rest
end

mutual
/-- File paths appended to `all_files` by the same walk. -/
def walkFiles (p : List String) : FsTree → List (List String)
  | FsTree.node subs files =>
    walkFilesForest p subs ++ files.map (fun f => p ++ [f])

/-- Contributions to `all_files` of the subtrees of a forest. -/
def walkFilesForest (p : List String) : FsForest → List (List String)
  | FsForest.nil => []
  | FsForest.cons n t rest => walkFiles (p ++ [n]) t ++ walkFilesForest p rest
end

/-- No name occurs twice in the list (sibling names of one real directory
are distinct). -/
def namesNodup : List String → Bool
  | [] => true
  | n :: rest => !(rest.elem n) && namesNodup rest

mutual
/-- Well-formedness of a tree as a real directory tree: in every
directory the sibling subdirectory names are distinct. -/
def nodupTree : FsTree → Bool
  | FsTree.node subs _ => namesNodup (forestNames subs) && nodupForest subs

/-- Well-formedness of every tree of a forest. -/
def nodupForest : FsForest → Bool
  | FsForest.nil => true
  | FsForest.cons _ t rest => nodupTree t && nodupForest rest
end

/-- Path `b` lies strictly below path `a` (`a` is a proper ancestor
directory of `b`). -/
def descOf (a b : List String) : Prop :=
  a.length < b.length ∧ b.take a.length = a

instance (a b : List String) : Decidable (descOf a b) :=
  inferInstanceAs (Decidable (a.length < b.length ∧ b.take a.length = a))

/-- One engine action of the phases following the inventory. -/
inductive EngineEvent where
  | sanitize : List String → EngineEvent
  | removeDir : List String → EngineEvent
deriving DecidableEq, Repr

/-- Order of engine actions after the inventory: step 2 sanitizes every
inventoried file, then step 3 tears down the inventoried directories in
inventory order. -/
def engineTrace (t : FsTree) : List EngineEvent :=
  (walkFiles [] t).map EngineEvent.sanitize ++ (walkDirs [] t).map EngineEvent.removeDir

/-- One teardown action of step 3. -/
inductive TdEvent where
  | rmdirAttempt : List String → TdEvent
  | rmtreeForce : List String → TdEvent
deriving DecidableEq, Repr

/-- Teardown of one directory: try the expect-empty `os.rmdir`; on
`OSError` (directory not empty, `rmdirOk` false) fall back to the forced
recursive `shutil.rmtree`. -/
def teardownDir (rmdirOk : List String → Bool) (d : List String) : List TdEvent :=
  TdEvent.rmdirAttempt d :: (if rmdirOk d then [] else [TdEvent.rmtreeForce d])

/-- Control flow of `secure_delete_folder`: `none` target models a path
that does not exist or is not a directory (the engine returns `None`);
otherwise the inventory runs, and when it found nothing the engine
returns the parent immediately; otherwise after the file phase the
teardown processes every inventoried directory and then the root itself,
and the parent directory is returned regardless of teardown outcomes. -/
def secure_delete_folder (target : Option FsTree) (folderPath : List String)
    (rmdirOk : List String → Bool) : Option (List String) × List TdEvent :=
  match target with
  | none => (none, [])
  | some t =>
    let files := walkFiles folderPath t
    let dirs := walkDirs folderPath t
    if files.isEmpty && dirs.isEmpty then (some folderPath.dropLast, [])
    else (some folderPath.dropLast,
      dirs.flatMap (teardownDir rmdirOk) ++ teardownDir rmdirOk folderPath)

/-! ## RenameObfuscator and the step-1/step-2 interplay
(`secure_rename` lines 30-66 and `secure_delete_folder` lines 480-550)

`secure_rename` renames the current live path once per pass to a fresh
random name; on an exception it stops and returns `None`, leaving the file
at the name it last reached.  The environment supplies the fresh names and
the pass whose `os.rename` raises. -/

/-- Environment of one rename chain: the random name drawn for each pass
and the pass (if any) whose rename raises. -/
structure RenameEnv where
  freshName : Nat → String
  failsAt : Option Nat

/-- The `for i in range(passes)` loop of `secure_rename`, carrying the
pass index and the current live name; it returns the Python return value
(`some final` or `none` on failure) together with the name the file
actually has on disk afterwards. -/
def renameLoop (env : RenameEnv) : Nat → Nat → String → Option String × String
  | 0, _, cur => (some cur, cur)
  | k + 1, i, cur =>
    if env.failsAt = some i then (none, cur)
    else renameLoop env k (i + 1) (env.freshName i)

/-- `secure_rename(path, passes)`: run the pass loop from the original
name. -/
def secure_rename (env : RenameEnv) (passes : Nat) (orig : String) : Option String × String :=
  renameLoop env passes 0 orig

/-- Path recorded in the engine's working list by step 1: the renamed
path on success, the original path when `secure_rename` returned
`None`. -/
def step1KeptPath (env : RenameEnv) (orig : String) : String :=
  match (secure_rename env 3 orig).1 with
  | some newPath => newPath
  | none => orig

/-- Name the file actually carries on disk after step 1. -/
def step1DiskPath (env : RenameEnv) (orig : String) : String :=
  (secure_rename env 3 orig).2

/-- What step 2 did to one file of the working list. -/
structure Step2Outcome where
  overwritten : Bool
  deleted : Bool
  successDelta : Nat
deriving DecidableEq, Repr

/-- Step 2 on one recorded path: `os.path.exists` (the recorded path
matches the on-disk name) guards the overwrite-and-delete call; a
non-existing recorded path is only counted past (progress update). -/
def step2Process (keptPath diskPath : String) : Step2Outcome :=
  if keptPath = diskPath then ⟨true, true, 1⟩ else ⟨false, false, 0⟩

/-! ## JournalFlood (`flood_journal`, src/secure-wipe.py lines 623-759)

The file system under the flood's temporary directory is a list of live
paths.  Random names never collide, so the created names and the per-file
per-pass rename names are distinct constructors. -/

/-- A path under the flood's temporary directory: the directory itself, the
`i`-th created dummy file's original name, or the fresh name drawn for
rename pass `j` of file `i`. -/
inductive JPath where
  | tempDir : JPath
  | created : Nat → JPath
  | renamed : Nat → Nat → JPath
deriving DecidableEq, Repr

/-- `os.rename(cur, new)` on the live-path list. -/
def renameOp (fs : List JPath) (cur new : JPath) : List JPath :=
  if cur ∈ fs then new :: fs.erase cur else fs

/-- Step 2 body for file `i`: `if file_path.exists(): secure_rename(file_path,
passes=3)` — three renames through fresh names, the final path discarded. -/
def floodRenameOne (fs : List JPath) (i : Nat) : List JPath :=
  if JPath.created i ∈ fs then
    renameOp (renameOp (renameOp fs (JPath.created i) (JPath.renamed i 0))
      (JPath.renamed i 0) (JPath.renamed i 1)) (JPath.renamed i 1) (JPath.renamed i 2)
  else fs

/-- Step 1: the temporary directory plus the `n` created dummy files. -/
def floodCreate (n : Nat) : List JPath :=
  JPath.tempDir :: (List.range n).map JPath.created

/-- Step 3 body for file `i`: `if file_path.exists(): file_path.unlink()`
on the path recorded in `created_files` — the original name. -/
def floodDeleteOne (fs : List JPath) (i : Nat) : List JPath :=
  if JPath.created i ∈ fs then fs.erase (JPath.created i) else fs

/-- `temp_dir.rmdir()`: succeeds only when no entry other than the
directory itself is live; on failure the exception is swallowed and the
directory stays. -/
def floodRmdirTemp (fs : List JPath) : List JPath :=
  if fs.any (fun p => p != JPath.tempDir) then fs else fs.erase JPath.tempDir

/-- Full run of `flood_journal` with `n` files in which every create and
rename succeeds: create, rename every created path, delete every created
path, remove the temporary directory. -/
def flood_journal (n : Nat) : List JPath :=
  floodRmdirTemp ((List.range n).foldl floodDeleteOne
    ((List.range n).foldl floodRenameOne (floodCreate n)))

/-! ## CapacityAdvisor auto-sizing (`flood_vss` lines 781-813 and
`flood_journal` lines 639-663)

Python float arithmetic on capacity values is modelled exactly:
`int(max_space * 0.8)` as `(4 * m) / 5` and
`int(max_size * 1.5 / 2000)` as `m * 3 / 4000` (truncating division);
the sizes involved are far below the magnitudes where binary floats
deviate from these values by more than the final truncation absorbs. -/

/-- Auto-sized storage-flood target in bytes from the queried
`max_space` (`None` models the capacity query returning absent). Branches
in source order: `if max_space and max_space > 0`, `elif max_space == -1
or max_space is None` (5 GiB), `else` (10 GiB). -/
def flood_vss_target_bytes (maxSpace : Option Int) : Nat :=
  match maxSpace with
  | some m =>
    if 0 < m then ((4 * m) / 5).toNat
    else if m = -1 then 5 * 1073741824
    else 10 * 1073741824
  | none => 5 * 1073741824

/-- Auto-sized journal-flood file count from the queried journal maximum
size: `int(max_size * 1.5 / (400 * 5))` clamped by
`max(50000, min(·, 500000))` when the size is known truthy, the fixed
fallback `100000` otherwise. -/
def flood_journal_auto_count (maxSize : Option Nat) : Nat :=
  match maxSize with
  | some m => if 0 < m then max 50000 (min (m * 3 / 4000) 500000) else 100000
  | none => 100000

end SecureWipe

namespace SecureWipe

/-! ### Theorems about the name generator -/

theorem hexChar_mem_alphabet : ∀ n, n < 16 → hexChar n ∈ hexAlphabet := by decide

theorem byteToHex_mem (b : Nat) : ∀ c ∈ byteToHex b, c ∈ hexAlphabet := by
  intro c hc
  simp only [byteToHex, List.mem_cons, List.not_mem_nil, or_false] at hc
  rcases hc with h | h
  · exact h ▸ hexChar_mem_alphabet _ (Nat.mod_lt _ (by norm_num))
  · exact h ▸ hexChar_mem_alphabet _ (Nat.mod_lt _ (by norm_num))

theorem token_hex_length (bytes : List Nat) :
    (token_hex bytes).length = 2 * bytes.length := by
  induction bytes with
  | nil => rfl
  | cons b rest ih =>
    simp only [token_hex, String.length, List.flatMap_cons, byteToHex] at *
    simp only [List.length_append, List.length_cons, List.length_nil] at *
    omega

theorem token_hex_chars (bytes : List Nat) :
    ∀ c ∈ (token_hex bytes).data, c ∈ hexAlphabet := by
  intro c hc
  simp only [token_hex, List.mem_flatMap] at hc
  obtain ⟨b, _, hb⟩ := hc
  exact byteToHex_mem b c hb

/-- C5: for every number `byteLength` of random bytes drawn, the generator
returns a lowercase hex string of exactly `2 * byteLength` characters; the
default call draws `48 / 2 = 24` bytes and yields 48 hex characters.  The
model is a pure function of the random supply: the call has no side
effects. -/
theorem C5_generate_random_name_hex_contract (rand : Nat → Nat) (byteLength : Nat) :
    (token_hex ((List.range byteLength).map rand)).length = 2 * byteLength ∧
    (∀ c ∈ (token_hex ((List.range byteLength).map rand)).data, c ∈ hexAlphabet) ∧
    generate_random_name rand 48 = token_hex ((List.range 24).map rand) ∧
    (generate_random_name rand 48).length = 48 := by
  refine ⟨?_, token_hex_chars _, rfl, ?_⟩
  · rw [token_hex_length, List.length_map, List.length_range]
  · rw [generate_random_name]
    rw [token_hex_length]
    simp

/-! ### Theorems about the overwrite loop -/

theorem writeChunksFuel_sum : ∀ fuel r, r ≤ fuel → (writeChunksFuel fuel r).sum = r
  | 0, 0, _ => rfl
  | 0, _ + 1, h => absurd h (by omega)
  | _ + 1, 0, _ => rfl
  | fuel + 1, r + 1, h => by
    have hrec := writeChunksFuel_sum fuel ((r + 1) - min 1048576 (r + 1)) (by omega)
    simp only [writeChunksFuel, List.sum_cons, hrec]
    omega

theorem writeChunksFuel_bounds :
    ∀ fuel r, ∀ c ∈ writeChunksFuel fuel r, 0 < c ∧ c ≤ 1048576
  | 0, _ => by simp [writeChunksFuel]
  | _ + 1, 0 => by simp [writeChunksFuel]
  | fuel + 1, r + 1 => by
    intro c hc
    simp only [writeChunksFuel, List.mem_cons] at hc
    rcases hc with h | h
    · subst h; omega
    · exact writeChunksFuel_bounds fuel _ c h

theorem writeChunks_sum (fileSize : Nat) : (writeChunks fileSize).sum = fileSize :=
  writeChunksFuel_sum fileSize fileSize (Nat.le_refl _)

theorem writeChunks_bounds (fileSize : Nat) :
    ∀ c ∈ writeChunks fileSize, 0 < c ∧ c ≤ 1048576 :=
  writeChunksFuel_bounds fileSize fileSize

theorem overwriteTrace_events (fileSize k : Nat) :
    ∀ e ∈ overwriteTrace fileSize k, isSeek e = true ∨ isWrite e = true := by
  induction k with
  | zero => simp [overwriteTrace]
  | succ k ih =>
    intro e he
    simp only [overwriteTrace, List.mem_append, List.mem_cons, List.mem_map] at he
    rcases he with h | h | ⟨n, _, hn⟩
    · exact ih e h
    · subst h; left; rfl
    · subst hn; right; rfl

theorem overwriteTrace_countP_seek (fileSize k : Nat) :
    (overwriteTrace fileSize k).countP isSeek = k := by
  induction k with
  | zero => rfl
  | succ k ih =>
    simp only [overwriteTrace, List.countP_append, List.countP_cons, ih]
    have : (List.countP isSeek ((writeChunks fileSize).map FileEvent.write)) = 0 := by
      rw [List.countP_eq_zero]
      intro e he
      simp only [List.mem_map] at he
      obtain ⟨n, _, hn⟩ := he
      subst hn; simp [isSeek]
    simp [this, isSeek]

theorem overwriteTrace_countP_flush (fileSize k : Nat) :
    (overwriteTrace fileSize k).countP isFlush = 0 := by
  rw [List.countP_eq_zero]
  intro e he
  rcases overwriteTrace_events fileSize k e he with h | h <;>
    cases e <;> simp_all [isSeek, isWrite, isFlush]

theorem overwriteTrace_countP_fsync (fileSize k : Nat) :
    (overwriteTrace fileSize k).countP isFsync = 0 := by
  rw [List.countP_eq_zero]
  intro e he
  rcases overwriteTrace_events fileSize k e he with h | h <;>
    cases e <;> simp_all [isSeek, isWrite, isFsync]

theorem overwriteTrace_eq_range_foldl (fileSize : Nat) :
    ∀ k, overwriteTrace fileSize k =
      (List.range k).foldl
        (fun tr _ =>
          tr ++ (FileEvent.seekStart :: (writeChunks fileSize).map FileEvent.write)) [] := by
  intro k
  induction k with
  | zero => rfl
  | succ k ih =>
    rw [List.range_succ, List.foldl_append, ← ih]
    rfl

/-- C8: on a non-empty file of size `S` with `k ≥ 1` passes, the sanitizer
performs exactly `k` passes (one seek-to-start per pass), each pass writes
exactly `S` bytes in positive chunks of at most one MiB, exactly one
flush and one fsync are issued and only after every pass (none between
passes), and the unlink is the final operation. -/
theorem C8_overwrite_trace_contract (S k : Nat) (hS : 0 < S) (hk : 1 ≤ k) :
    secure_delete_file S k =
      (true, overwriteTrace S k ++ [FileEvent.flush, FileEvent.fsync, FileEvent.remove]) ∧
    overwriteTrace S k =
      (List.range k).foldl
        (fun tr _ =>
          tr ++ (FileEvent.seekStart :: (writeChunks S).map FileEvent.write)) [] ∧
    (overwriteTrace S k).countP isSeek = k ∧
    (writeChunks S).sum = S ∧
    (∀ c ∈ writeChunks S, 0 < c ∧ c ≤ 1048576) ∧
    (overwriteTrace S k).countP isFlush = 0 ∧
    (overwriteTrace S k).countP isFsync = 0 ∧
    (secure_delete_file S k).2.countP isFlush = 1 ∧
    (secure_delete_file S k).2.countP isFsync = 1 := by
  have hS' : ¬ S = 0 := by omega
  refine ⟨by simp [secure_delete_file, hS'], overwriteTrace_eq_range_foldl S k,
    overwriteTrace_countP_seek S k, writeChunks_sum S, writeChunks_bounds S,
    overwriteTrace_countP_flush S k, overwriteTrace_countP_fsync S k, ?_, ?_⟩ <;>
    simp [secure_delete_file, hS', List.countP_append, List.countP_cons,
      overwriteTrace_countP_flush, overwriteTrace_countP_fsync, isFlush, isFsync]

theorem C8_overwrite_trace_contract_witness :
    0 < 3 ∧ 1 ≤ 2 ∧
    (overwriteTrace 3 2).countP isSeek = 2 ∧
    (writeChunks 3).sum = 3 ∧
    (secure_delete_file 3 2).2.countP isFsync = 1 := by
  have h := C8_overwrite_trace_contract 3 2 (by decide) (by decide)
  exact ⟨by decide, by decide, h.2.2.1, h.2.2.2.1, h.2.2.2.2.2.2.2.2⟩

/-- C9: a zero-length file is removed directly: the run issues the single
`os.remove` call, no write operation at all, and reports success. -/
theorem C9_zero_length_direct_remove (passes : Nat) :
    secure_delete_file 0 passes = (true, [FileEvent.remove]) ∧
    (secure_delete_file 0 passes).2.countP isWrite = 0 ∧
    (secure_delete_file 0 passes).1 = true :=
  ⟨rfl, rfl, rfl⟩

/-! ### Theorems about the failure policy -/

theorem delete_files_phase_go (cases : List FileCase) : ∀ acc : Nat,
    cases.foldl
      (fun acc c => if c.present && secure_delete_file_catch c then acc + 1 else acc) acc =
      acc + (cases.filter (fun c => c.present && secure_delete_file_catch c)).length := by
  induction cases with
  | nil => simp
  | cons c rest ih =>
    intro acc
    by_cases h : (c.present && secure_delete_file_catch c) = true
    · simp only [List.foldl_cons, List.filter_cons, h, if_true, List.length_cons, ih]
      omega
    · simp only [List.foldl_cons, List.filter_cons, h, if_false, ih]
      simp

/-- C6: every exception the body raises is caught and classified as a
failure (`False`); the step-2 loop therefore processes every file of its
list independently and the engine always terminates with a summary report
counting all files. -/
theorem C6_exceptions_contained (cases : List FileCase) :
    (∀ c : FileCase, ∀ e : PyExc, secure_delete_file_body c = Except.error e →
      secure_delete_file_catch c = false) ∧
    (wipe_report cases).totalFiles = cases.length ∧
    (wipe_report cases).successCount =
      (cases.filter (fun c => c.present && secure_delete_file_catch c)).length ∧
    (wipe_report cases).successCount ≤ cases.length := by
  refine ⟨?_, rfl, ?_, ?_⟩
  · intro c e h
    cases e <;> simp [secure_delete_file_catch, h]
  · simpa [wipe_report, delete_files_phase] using delete_files_phase_go cases 0
  · have h : (wipe_report cases).successCount =
        (cases.filter (fun c => c.present && secure_delete_file_catch c)).length := by
      simpa [wipe_report, delete_files_phase] using delete_files_phase_go cases 0
    rw [h]
    exact List.length_filter_le _ _

theorem C6_exceptions_contained_witness :
    secure_delete_file_body ⟨true, 5, some PyExc.permissionError⟩ =
      Except.error PyExc.permissionError ∧
    secure_delete_file_catch ⟨true, 5, some PyExc.permissionError⟩ = false ∧
    (wipe_report [⟨true, 5, some PyExc.permissionError⟩, ⟨true, 0, none⟩]).totalFiles = 2 ∧
    (wipe_report [⟨true, 5, some PyExc.permissionError⟩, ⟨true, 0, none⟩]).successCount = 1 := by
  have h := C6_exceptions_contained
    [⟨true, 5, some PyExc.permissionError⟩, ⟨true, 0, none⟩]
  exact ⟨rfl, h.1 ⟨true, 5, some PyExc.permissionError⟩ PyExc.permissionError rfl,
    h.2.1, (h.2.2.1).trans (by decide)⟩

/-! ### Theorems about the inventory order -/

theorem descOf_append_single (p : List String) (n : String) : descOf p (p ++ [n]) := by
  refine ⟨by simp, ?_⟩
  exact List.take_left p [n]

theorem descOf_trans {a b c : List String} (h1 : descOf a b) (h2 : descOf b c) :
    descOf a c := by
  obtain ⟨l1, t1⟩ := h1
  obtain ⟨l2, t2⟩ := h2
  refine ⟨by omega, ?_⟩
  have h : c.take a.length = (c.take b.length).take a.length := by
    rw [List.take_take]
    congr 1
    omega
  rw [h, t2, t1]

mutual

theorem mem_walkDirs_desc : ∀ (p : List String) (t : FsTree), ∀ x ∈ walkDirs p t, descOf p x
  | p, FsTree.node subs files => by
    intro x hx
    simp only [walkDirs, List.mem_append, List.mem_map] at hx
    rcases hx with h | ⟨n, _, hn⟩
    · obtain ⟨m, _, hm⟩ := mem_walkDirsForest_desc p subs x h
      exact descOf_trans (descOf_append_single p m) hm
    · exact hn ▸ descOf_append_single p n

theorem mem_walkDirsForest_desc : ∀ (p : List String) (F : FsForest),
    ∀ x ∈ walkDirsForest p F, ∃ n, n ∈ forestNames F ∧ descOf (p ++ [n]) x
  | p, FsForest.nil => by simp [walkDirsForest]
  | p, FsForest.cons n t rest => by
    intro x hx
    simp only [walkDirsForest, List.mem_append] at hx
    rcases hx with h | h
    · exact ⟨n, by simp [forestNames], mem_walkDirs_desc (p ++ [n]) t x h⟩
    · obtain ⟨m, hm1, hm2⟩ := mem_walkDirsForest_desc p rest x h
      exact ⟨m, by simp [forestNames, hm1], hm2⟩

end

theorem pairwiseOfMem {α : Type} {R : α → α → Prop} :
    ∀ l : List α, (∀ a ∈ l, ∀ b ∈ l, R a b) → l.Pairwise R
  | [], _ => List.Pairwise.nil
  | a :: l, h => by
    constructor
    · intro b hb
      exact h a (by simp) b (by simp [hb])
    · exact pairwiseOfMem l (fun x hx y hy => h x (by simp [hx]) y (by simp [hy]))

theorem namesNodup_cons {n : String} {rest : List String}
    (h : namesNodup (n :: rest) = true) :
    n ∉ rest ∧ namesNodup rest = true := by
  simp only [namesNodup, Bool.and_eq_true, Bool.not_eq_true'] at h
  refine ⟨?_, h.2⟩
  intro hmem
  have htrue := List.elem_iff.mpr hmem
  rw [htrue] at h
  exact absurd h.1 (by simp)

mutual

theorem walkDirs_pairwise : ∀ (p : List String) (t : FsTree), nodupTree t = true →
    (walkDirs p t).Pairwise (fun a b => ¬ descOf a b)
  | p, FsTree.node subs files, h => by
    have h12 : namesNodup (forestNames subs) = true ∧ nodupForest subs = true := by
      simpa [nodupTree, Bool.and_eq_true] using h
    simp only [walkDirs]
    rw [List.pairwise_append]
    refine ⟨walkDirsForest_pairwise p subs h12.1 h12.2, ?_, ?_⟩
    · apply pairwiseOfMem
      intro a ha b hb hd
      simp only [List.mem_map] at ha hb
      obtain ⟨n, _, rfl⟩ := ha
      obtain ⟨m, _, rfl⟩ := hb
      have hl := hd.1
      simp at hl
    · intro a ha b hb hd
      obtain ⟨m, _, hm⟩ := mem_walkDirsForest_desc p subs a ha
      simp only [List.mem_map] at hb
      obtain ⟨n, _, rfl⟩ := hb
      have h1 : (p ++ [m]).length < a.length := hm.1
      have h2 : a.length < (p ++ [n]).length := hd.1
      simp only [List.length_append, List.length_cons, List.length_nil] at h1 h2
      omega

theorem walkDirsForest_pairwise : ∀ (p : List String) (F : FsForest),
    namesNodup (forestNames F) = true → nodupForest F = true →
    (walkDirsForest p F).Pairwise (fun a b => ¬ descOf a b)
  | _, FsForest.nil, _, _ => by simp [walkDirsForest]
  | p, FsForest.cons n t rest, h1, h2 => by
    have hn : n ∉ forestNames rest ∧ namesNodup (forestNames rest) = true :=
      namesNodup_cons (by simpa [forestNames] using h1)
    have ht : nodupTree t = true ∧ nodupForest rest = true := by
      simpa [nodupForest, Bool.and_eq_true] using h2
    simp only [walkDirsForest]
    rw [List.pairwise_append]
    refine ⟨walkDirs_pairwise (p ++ [n]) t ht.1,
      walkDirsForest_pairwise p rest hn.2 ht.2, ?_⟩
    intro a ha b hb hd
    have hda : descOf (p ++ [n]) a := mem_walkDirs_desc (p ++ [n]) t a ha
    obtain ⟨m, hm, hdb⟩ := mem_walkDirsForest_desc p rest b hb
    have hdnb : descOf (p ++ [n]) b := descOf_trans hda hd
    have e1 := hdnb.2
    have e2 := hdb.2
    have hlen : (p ++ [n]).length = (p ++ [m]).length := by simp
    rw [hlen] at e1
    have heq : p ++ [n] = p ++ [m] := e1.symm.trans e2
    have hnm : n = m := by
      have := List.append_cancel_left heq
      simpa using this
    exact hn.1 (hnm ▸ hm)

end

/-- The tree used as concrete input in witnesses: `victim/a/b/f1` with a
file `f2` directly in `victim`. -/
def sampleTree : FsTree :=
  FsTree.node
    (FsForest.cons "a"
      (FsTree.node
        (FsForest.cons "b" (FsTree.node FsForest.nil ["f1"]) FsForest.nil) [])
      FsForest.nil)
    ["f2"]

/-- C7: in a well-formed tree (distinct sibling names) the inventoried
directory sequence is post-order: no directory appears before one of its
inventoried descendants (`Pairwise` of "the earlier entry is not a proper
ancestor of the later one"); and teardown runs over exactly that sequence
only after every inventoried file has gone through sanitization. -/
theorem C7_postorder_teardown (t : FsTree) (h : nodupTree t = true) :
    (walkDirs [] t).Pairwise (fun a b => ¬ descOf a b) ∧
    engineTrace t =
      (walkFiles [] t).map EngineEvent.sanitize ++
        (walkDirs [] t).map EngineEvent.removeDir ∧
    (engineTrace t).take (walkFiles [] t).length =
      (walkFiles [] t).map EngineEvent.sanitize ∧
    (engineTrace t).drop (walkFiles [] t).length =
      (walkDirs [] t).map EngineEvent.removeDir := by
  refine ⟨walkDirs_pairwise [] t h, rfl, ?_, ?_⟩
  · rw [engineTrace]
    have := List.take_left ((walkFiles [] t).map EngineEvent.sanitize)
      ((walkDirs [] t).map EngineEvent.removeDir)
    simpa using this
  · rw [engineTrace]
    have := List.drop_left ((walkFiles [] t).map EngineEvent.sanitize)
      ((walkDirs [] t).map EngineEvent.removeDir)
    simpa using this

theorem C7_postorder_teardown_witness :
    nodupTree sampleTree = true ∧
    ((walkDirs [] sampleTree).Pairwise (fun a b => ¬ descOf a b) ∧
      walkDirs [] sampleTree = [["a", "b"], ["a"]]) := by
  have h := C7_postorder_teardown sampleTree (by decide)
  exact ⟨by decide, h.1, by decide⟩

/-! ### Theorems about the root teardown (C4) -/

/-- C4 counterexample: on an existing target directory whose tree is
empty, the engine returns the parent immediately and no removal of the
root directory is ever attempted — refuting the claim's "including when
the target tree is empty". -/
theorem C4_empty_tree_no_root_attempt :
    secure_delete_folder (some (FsTree.node FsForest.nil [])) ["home", "victim"]
      (fun _ => true) = (some ["home"], []) ∧
    TdEvent.rmdirAttempt ["home", "victim"] ∉
      (secure_delete_folder (some (FsTree.node FsForest.nil [])) ["home", "victim"]
        (fun _ => true)).2 := by
  constructor
  · rfl
  · intro hmem
    simp only [secure_delete_folder] at hmem
    exact absurd hmem (by decide)

/-- C4 as amended: for every target that exists and is a directory the
engine returns the root's parent; when the inventory found at least one
file or directory, teardown ends with the expect-empty attempt on the
root itself followed by the forced fallback exactly when the expect-empty
removal fails; when the tree is empty the engine returns immediately with
no teardown action. -/
theorem C4_root_teardown_amended (t : FsTree) (path : List String)
    (rmdirOk : List String → Bool) :
    (secure_delete_folder (some t) path rmdirOk).1 = some path.dropLast ∧
    (walkFiles path t = [] ∧ walkDirs path t = [] →
      (secure_delete_folder (some t) path rmdirOk).2 = []) ∧
    ((walkFiles path t ≠ [] ∨ walkDirs path t ≠ []) →
      (secure_delete_folder (some t) path rmdirOk).2 =
        (walkDirs path t).flatMap (teardownDir rmdirOk) ++
          teardownDir rmdirOk path) ∧
    TdEvent.rmdirAttempt path ∈ teardownDir rmdirOk path ∧
    (rmdirOk path = false → TdEvent.rmtreeForce path ∈ teardownDir rmdirOk path) := by
  refine ⟨?_, ?_, ?_, ?_, ?_⟩
  · by_cases h : ((walkFiles path t).isEmpty && (walkDirs path t).isEmpty) = true <;>
      simp [secure_delete_folder, h]
  · intro h
    have hb : ((walkFiles path t).isEmpty && (walkDirs path t).isEmpty) = true := by
      simp [List.isEmpty_iff, h.1, h.2]
    simp [secure_delete_folder, hb]
  · intro h
    have hb : ¬ (((walkFiles path t).isEmpty && (walkDirs path t).isEmpty) = true) := by
      intro hcontra
      rw [Bool.and_eq_true, List.isEmpty_iff, List.isEmpty_iff] at hcontra
      rcases h with h | h
      · exact h hcontra.1
      · exact h hcontra.2
    simp [secure_delete_folder, hb]
  · simp [teardownDir]
  · intro h
    simp [teardownDir, h]

/-- Single-file tree used as a concrete nonempty input for the C4
witness. -/
def oneFileTree : FsTree := FsTree.node FsForest.nil ["doc"]

theorem C4_root_teardown_amended_witness :
    (secure_delete_folder (some oneFileTree) ["home", "victim"] (fun _ => false)).1
      = some ["home"] ∧
    (secure_delete_folder (some oneFileTree) ["home", "victim"] (fun _ => false)).2
      = (walkDirs ["home", "victim"] oneFileTree).flatMap (teardownDir (fun _ => false)) ++
        teardownDir (fun _ => false) ["home", "victim"] ∧
    TdEvent.rmtreeForce ["home", "victim"] ∈
      teardownDir (fun _ => false) ["home", "victim"] := by
  have h := C4_root_teardown_amended oneFileTree ["home", "victim"] (fun _ => false)
  exact ⟨h.1, h.2.2.1 (Or.inl (by decide)), h.2.2.2.2 rfl⟩

/-! ### Theorems about the rename-failure path (C3) -/

/-- C3: when the rename chain raises at pass `f` with `1 ≤ f < 3`, the
engine records the original path (kept-path = original), the file is on
disk under the intermediate random name of pass `f - 1`, the original
path no longer exists, and step 2 therefore neither overwrites nor
deletes the file and counts no success. -/
theorem C3_failed_rename_stale_path (env : RenameEnv) (orig : String) (f : Nat)
    (hfail : env.failsAt = some f) (h1 : 1 ≤ f) (h3 : f < 3)
    (hfresh : ∀ i, env.freshName i ≠ orig) :
    step1KeptPath env orig = orig ∧
    step1DiskPath env orig = env.freshName (f - 1) ∧
    step1DiskPath env orig ≠ orig ∧
    step2Process (step1KeptPath env orig) (step1DiskPath env orig) =
      ⟨false, false, 0⟩ := by
  have hne : ∀ i, orig ≠ env.freshName i := fun i hc => hfresh i hc.symm
  interval_cases f
  · have e : secure_rename env 3 orig = (none, env.freshName 0) := by
      simp [secure_rename, renameLoop, hfail]
    have hd : step1DiskPath env orig = env.freshName 0 := by simp [step1DiskPath, e]
    have hk : step1KeptPath env orig = orig := by simp [step1KeptPath, e]
    refine ⟨hk, hd, by rw [hd]; exact hfresh 0, ?_⟩
    rw [hk, hd]
    simp [step2Process, hne 0]
  · have e : secure_rename env 3 orig = (none, env.freshName 1) := by
      simp [secure_rename, renameLoop, hfail]
    have hd : step1DiskPath env orig = env.freshName 1 := by simp [step1DiskPath, e]
    have hk : step1KeptPath env orig = orig := by simp [step1KeptPath, e]
    refine ⟨hk, hd, by rw [hd]; exact hfresh 1, ?_⟩
    rw [hk, hd]
    simp [step2Process, hne 1]

theorem C3_failed_rename_stale_path_witness :
    step1KeptPath ⟨fun _ => "x4f2", some 1⟩ "doc.txt" = "doc.txt" ∧
    step1DiskPath ⟨fun _ => "x4f2", some 1⟩ "doc.txt" = "x4f2" ∧
    step2Process (step1KeptPath ⟨fun _ => "x4f2", some 1⟩ "doc.txt")
      (step1DiskPath ⟨fun _ => "x4f2", some 1⟩ "doc.txt") = ⟨false, false, 0⟩ := by
  have h := C3_failed_rename_stale_path ⟨fun _ => "x4f2", some 1⟩ "doc.txt" 1
    rfl (by decide) (by decide)
    (fun _ => (by decide : ("x4f2" : String) ≠ "doc.txt"))
  exact ⟨h.1, h.2.1, h.2.2.2⟩

/-! ### Theorems about the journal flood cleanup (C1) -/

/-- C1 refutation on the code: in the run with one file in which every
create and rename succeeds, phase 3 deletes nothing (the recorded
original path no longer exists after the renames), the file created by
the flood is still on disk under its final rename name, and the
temporary directory could not be removed. -/
theorem C1_flood_journal_leaves_files :
    flood_journal 1 = [JPath.renamed 0 2, JPath.tempDir] ∧
    JPath.renamed 0 2 ∈ flood_journal 1 ∧
    JPath.tempDir ∈ flood_journal 1 ∧
    flood_journal 1 ≠ [] := by decide

/-! ### Theorems about the capacity advisor (C2, C10) -/

/-- C2 refutation on the code: when the capacity query returns absent
(`None`) for the storage allocation, the auto-sized storage-flood target
is 5 GiB — the `max_space == -1 or max_space is None` branch — not the
claimed 10 GiB; the 10 GiB branch is reached only for a present
non-positive value other than `-1` (such as 0). -/
theorem C2_absent_capacity_five_not_ten :
    flood_vss_target_bytes none = 5 * 1073741824 ∧
    flood_vss_target_bytes none ≠ 10 * 1073741824 ∧
    flood_vss_target_bytes (some (-1)) = 5 * 1073741824 ∧
    flood_vss_target_bytes (some 0) = 10 * 1073741824 := by
  refine ⟨rfl, by decide, rfl, rfl⟩

/-- C10: the auto-sized journal-flood file count is always within
`[50000, 500000]`; when the journal maximum size is known (positive) it
equals the clamp of `1.5 * maxSize / (400 * 5)` to that range, and when
capacity data is unavailable the fixed fallback 100000 (inside the
range) is used. -/
theorem C10_journal_count_clamped (maxSize : Option Nat) :
    50000 ≤ flood_journal_auto_count maxSize ∧
    flood_journal_auto_count maxSize ≤ 500000 ∧
    (∀ m, maxSize = some m → 0 < m →
      flood_journal_auto_count maxSize = max 50000 (min (m * 3 / 4000) 500000)) ∧
    flood_journal_auto_count none = 100000 := by
  refine ⟨?_, ?_, ?_, rfl⟩
  · cases maxSize with
    | none => simp [flood_journal_auto_count]
    | some m =>
      by_cases h : 0 < m <;> simp [flood_journal_auto_count, h]
  · cases maxSize with
    | none => simp [flood_journal_auto_count]
    | some m =>
      by_cases h : 0 < m <;> simp [flood_journal_auto_count, h]
  · intro m hm hpos
    subst hm
    simp [flood_journal_auto_count, hpos]

theorem C10_journal_count_clamped_witness :
    0 < 67108864 ∧
    flood_journal_auto_count (some 67108864) = 50331 ∧
    50000 ≤ flood_journal_auto_count (some 67108864) ∧
    flood_journal_auto_count (some 67108864) ≤ 500000 := by
  have h := C10_journal_count_clamped (some 67108864)
  refine ⟨by decide, ?_, h.1, h.2.1⟩
  rw [h.2.2.1 67108864 rfl (by decide)]
  decide

end SecureWipe
